import Mathlib

/-!
Verification of the trade.xyz tracker core: the realized-PNL computation
(`calculatePNLFromFills`, src/js/api.js) and the WebSocket stream manager
(`WebSocketManager`, src/js/websocket.js), embedded shallowly.

JavaScript numbers produced by `parseFloat` are modelled as `Option ℚ`:
`some q` is a finite numeric value, `none` is NaN (the result of parsing a
non-parseable string).  Arithmetic propagates NaN; every comparison
involving NaN is false, exactly as in JavaScript.  Infinities are outside
the model.
-/

/-- A JavaScript number: a finite rational or NaN (`none`). -/
abbrev JsNum := Option ℚ

/-- JavaScript `+` on numbers: NaN-propagating addition. -/
def jadd : JsNum → JsNum → JsNum
  | some a, some b => some (a + b)
  | _, _ => none

/-- JavaScript `-` on numbers: NaN-propagating subtraction. -/
def jsub : JsNum → JsNum → JsNum
  | some a, some b => some (a - b)
  | _, _ => none

/-- JavaScript `*` on numbers: NaN-propagating multiplication. -/
def jmul : JsNum → JsNum → JsNum
  | some a, some b => some (a * b)
  | _, _ => none

/-- JavaScript `Math.min`: NaN if either argument is NaN. -/
def jmin : JsNum → JsNum → JsNum
  | some a, some b => some (min a b)
  | _, _ => none

/-- JavaScript `>` on numbers: false whenever an operand is NaN. -/
def jgt : JsNum → JsNum → Bool
  | some a, some b => decide (b < a)
  | _, _ => false

/-- JavaScript `<=` on numbers: false whenever an operand is NaN. -/
def jle : JsNum → JsNum → Bool
  | some a, some b => decide (a ≤ b)
  | _, _ => false

/-- The JavaScript literal `0`. -/
def jzero : JsNum := some 0

/-- One fill as consumed by `calculatePNLFromFills`: `coin` may be absent,
`px` and `sz` are the `parseFloat` results of the corresponding fields,
`side` is the raw side string (`"B"`/`"buy"` marks a buy). -/
structure Fill where
  coin : Option String
  px : JsNum
  sz : JsNum
  side : String
  deriving DecidableEq

/-- An element of the per-asset `buys`/`sells` arrays:
`{ price, size, value }` as pushed at src/js/api.js:255-257. -/
structure Entry where
  price : JsNum
  size : JsNum
  value : JsNum
  deriving DecidableEq

/-- The per-asset record of `pnlByAsset` (src/js/api.js:240-246). -/
structure AssetPnl where
  buys : List Entry
  sells : List Entry
  realizedPnl : JsNum
  volume : JsNum
  trades : Nat
  deriving DecidableEq

/-- The value returned by `calculatePNLFromFills` (src/js/api.js:292-297).
`byAsset` keeps the JavaScript object's insertion order of keys. -/
structure PnlResult where
  byAsset : List (String × AssetPnl)
  totalRealizedPnl : JsNum
  totalVolume : JsNum
  totalTrades : Nat
  deriving DecidableEq

/-- `fill.side === 'B' || fill.side === 'buy'` (src/js/api.js:236). -/
def isBuySide (s : String) : Bool := s == "B" || s == "buy"

/-- JavaScript `s.startsWith(p)`: the characters of `p` lead those of `s`. -/
def strStartsWith (s p : String) : Bool := p.data.isPrefixOf s.data

/-- The filter `f.coin && f.coin.startsWith('xyz:')` (src/js/api.js:230);
an absent `coin` is falsy. -/
def isXyzFill (f : Fill) : Bool :=
  match f.coin with
  | some c => strStartsWith c "xyz:"
  | none => false

/-- The JavaScript key used for `pnlByAsset[asset]`; the default is
unreachable because ingestion only sees fills that passed `isXyzFill`. -/
def assetOf (f : Fill) : String := f.coin.getD ""

/-- The fresh per-asset record (src/js/api.js:240-246). -/
def emptyAsset : AssetPnl :=
  { buys := [], sells := [], realizedPnl := some 0, volume := some 0, trades := 0 }

/-- `pnlByAsset` as an insertion-ordered association list; update in place. -/
def updAssoc (m : List (String × AssetPnl)) (k : String) (g : AssetPnl → AssetPnl) :
    List (String × AssetPnl) :=
  match m with
  | [] => []
  | (a, d) :: rest => if a = k then (a, g d) :: rest else (a, d) :: updAssoc rest k g

/-- `pnlByAsset[asset]` truthiness test (src/js/api.js:239). -/
def hasKey (m : List (String × AssetPnl)) (k : String) : Bool :=
  m.any (fun p => p.1 == k)

/-- State threaded through the ingestion loop (src/js/api.js:232-259). -/
structure IngestState where
  m : List (String × AssetPnl)
  totalVolume : JsNum
  totalTrades : Nat
  deriving DecidableEq

/-- The per-asset effect of ingesting one fill: add `value` to `volume`,
bump `trades`, and push the entry onto `buys` or `sells`
(src/js/api.js:249-258). -/
def addFillToAsset (d : AssetPnl) (price size value : JsNum) (isBuy : Bool) : AssetPnl :=
  let d1 := { d with volume := jadd d.volume value, trades := d.trades + 1 }
  if isBuy then { d1 with buys := d1.buys ++ [{ price := price, size := size, value := value }] }
  else { d1 with sells := d1.sells ++ [{ price := price, size := size, value := value }] }

/-- The body of `xyzFills.forEach(fill => ...)` (src/js/api.js:232-259). -/
def ingestFill (st : IngestState) (f : Fill) : IngestState :=
  let asset := assetOf f
  let price := f.px
  let size := f.sz
  let isBuy := isBuySide f.side
  let value := jmul price size
  let m0 := if hasKey st.m asset then st.m else st.m ++ [(asset, emptyAsset)]
  { m := updAssoc m0 asset (fun d => addFillToAsset d price size value isBuy),
    totalVolume := jadd st.totalVolume value,
    totalTrades := st.totalTrades + 1 }

/-- Keep-branch guard fact used for termination of the matching loop:
when the front lot is not popped, the updated remaining sell size fails
the `> 0` test. -/
theorem jgt_sub_min_eq_false (r s : JsNum) (h : jgt r jzero = true)
    (hk : ¬ jle (jsub s (jmin r s)) jzero = true) :
    jgt (jsub r (jmin r s)) jzero = false := by
  cases r with
  | none => simp [jgt] at h
  | some rv =>
    cases s with
    | none => simp [jmin, jsub, jgt]
    | some sv =>
      simp only [jgt, jzero, decide_eq_true_eq] at h
      simp only [jmin, jsub, jle, jzero, decide_eq_true_eq] at hk
      simp only [jmin, jsub, jgt, jzero, decide_eq_false_iff_not]
      rcases min_cases rv sv with ⟨hmin, _⟩ | ⟨hmin, hlt⟩
      · rw [hmin]; simp
      · rw [hmin] at hk ⊢
        exact absurd (by linarith) hk

/-- The inner `while (remainingSellSize > 0 && buys.length > 0)` matching
loop (src/js/api.js:272-285).  `const buys = [...data.buys]` is a shallow
copy, so `buy.size -= matchSize` mutates entry objects shared with the
stored `pnlByAsset[asset].buys` array while `buys.shift()` removes the
entry from the copy only.  The result is therefore a triple: the
accumulated `realizedPnl`, the entries shifted out of the copy carrying
their mutated sizes, and the remaining queue; the shared stored array ends
up as shifted-out entries followed by the remaining queue. -/
def sellLoop (sp : JsNum) (remaining : JsNum) (queue : List Entry) (pnl : JsNum) :
    JsNum × List Entry × List Entry :=
  if h : jgt remaining jzero = true then
    match queue with
    | [] => (pnl, [], [])
    | b :: rest =>
      let m := jmin remaining b.size
      let pnl2 := jadd pnl (jmul (jsub sp b.price) m)
      let r2 := jsub remaining m
      let s2 := jsub b.size m
      if h2 : jle s2 jzero = true then
        let r := sellLoop sp r2 rest pnl2
        (r.1, { price := b.price, size := s2, value := b.value } :: r.2.1, r.2.2)
      else sellLoop sp r2 ({ price := b.price, size := s2, value := b.value } :: rest) pnl2
  else (pnl, [], queue)
termination_by queue.length + (if jgt remaining jzero = true then 1 else 0)
decreasing_by
  · simp only [h, if_true, List.length_cons]
    have : (if jgt (jsub remaining (jmin remaining b.size)) jzero = true then 1 else 0) ≤ 1 := by
      split <;> omega
    omega
  · have hf : jgt (jsub remaining (jmin remaining b.size)) jzero = false :=
      jgt_sub_min_eq_false remaining b.size h h2
    simp only [h, if_true, hf, List.length_cons, Bool.false_eq_true, if_false]
    omega

/-- The `sells.forEach(sell => ...)` loop (src/js/api.js:269-286), threading
the buy queue and the accumulated realized PNL; the middle component
collects all entries shifted out of the queue copy so far, in order, with
their mutated sizes. -/
def processSells : List Entry → List Entry → JsNum → JsNum × List Entry × List Entry
  | [], queue, pnl => (pnl, [], queue)
  | s :: rest, queue, pnl =>
    let r := sellLoop s.price s.size queue pnl
    let r2 := processSells rest r.2.2 r.1
    (r2.1, r.2.1 ++ r2.2.1, r2.2.2)

/-- The per-asset realized PNL computed in the second pass
(src/js/api.js:262-290), starting from `realizedPnl = 0`. -/
def assetRealized (d : AssetPnl) : JsNum := (processSells d.sells d.buys (some 0)).1

/-- The final contents of the stored `pnlByAsset[asset].buys` array after
the matching pass: its entry objects were shared with the queue copy, so
it holds the shifted-out entries followed by the remaining queue, all with
their post-matching sizes. -/
def assetFinalBuys (d : AssetPnl) : List Entry :=
  (processSells d.sells d.buys (some 0)).2.1 ++ (processSells d.sells d.buys (some 0)).2.2

/-- Shallow embedding of `calculatePNLFromFills` (src/js/api.js:223-298).
The returned per-asset `buys` arrays carry the post-matching sizes because
the matching loop mutates the shared entry objects in place. -/
def calculatePNLFromFills (fills : List Fill) : PnlResult :=
  let xyzFills := fills.filter isXyzFill
  let st := xyzFills.foldl ingestFill { m := [], totalVolume := some 0, totalTrades := 0 }
  let second := st.m.foldl
    (fun acc p =>
      let r := processSells p.2.sells p.2.buys (some 0)
      (acc.1 ++ [(p.1, { p.2 with buys := r.2.1 ++ r.2.2, realizedPnl := r.1 })],
       jadd acc.2 r.1))
    (([] : List (String × AssetPnl)), some 0)
  { byAsset := second.1,
    totalRealizedPnl := second.2,
    totalVolume := st.totalVolume,
    totalTrades := st.totalTrades }

/-! ### The FIFO reference of the specification (exact decimals)

These definitions follow the wording of spec §4.1 for a single asset:
stable-partition the asset's fills into buys and sells; the ordered lot
queue is the buys in input order; each sell, in input order, repeatedly
matches `min(remaining sell size, front lot remaining size)` against the
front lot, realizes `(sellPrice - lotPrice) * matchedQty`, decrements both
sizes, pops the lot when its remaining size reaches zero, and stops when
the sell is fully matched or the queue is empty. -/

/-- A fill of one asset as the spec's data model has it: decimal price and
size plus a side. -/
structure SpecFill where
  price : ℚ
  size : ℚ
  isBuy : Bool
  deriving DecidableEq

/-- An open lot of the spec's FIFO queue. -/
structure SpecLot where
  price : ℚ
  size : ℚ
  deriving DecidableEq

/-- Keep-branch guard fact for the reference loop: if the front lot is not
popped, the remaining sell size has reached zero. -/
theorem spec_keep_remaining_zero (r s : ℚ) (hk : s - min r s ≠ 0) :
    ¬ 0 < r - min r s := by
  rcases min_cases r s with ⟨hmin, _⟩ | ⟨hmin, hlt⟩
  · rw [hmin]; simp
  · exact absurd (by rw [hmin]; ring) hk

/-- One sell of the FIFO reference consuming from the front of the queue. -/
def specMatchSell (sp : ℚ) (remaining : ℚ) (queue : List SpecLot) (pnl : ℚ) :
    ℚ × List SpecLot :=
  if h : 0 < remaining then
    match queue with
    | [] => (pnl, [])
    | lot :: rest =>
      let q := min remaining lot.size
      let pnl2 := pnl + (sp - lot.price) * q
      let r2 := remaining - q
      let s2 := lot.size - q
      if h2 : s2 = 0 then specMatchSell sp r2 rest pnl2
      else specMatchSell sp r2 ({ price := lot.price, size := s2 } :: rest) pnl2
  else (pnl, queue)
termination_by queue.length + (if 0 < remaining then 1 else 0)
decreasing_by
  · simp only [h, if_true, List.length_cons]
    have : (if 0 < remaining - min remaining lot.size then 1 else 0) ≤ 1 := by
      split <;> omega
    omega
  · have hf : ¬ 0 < remaining - min remaining lot.size :=
      spec_keep_remaining_zero remaining lot.size h2
    simp only [h, if_true, hf, List.length_cons, if_false]
    omega

/-- The reference processes the asset's sells in input order against the
lot queue. -/
def specSells : List SpecFill → List SpecLot → ℚ → ℚ
  | [], _, pnl => pnl
  | s :: rest, queue, pnl =>
    let r := specMatchSell s.price s.size queue pnl
    specSells rest r.2 r.1

/-- The spec's FIFO realized PNL of one asset's fill sequence. -/
def specFifoPnl (fs : List SpecFill) : ℚ :=
  let queue := (fs.filter (fun f => f.isBuy)).map (fun f => { price := f.price, size := f.size : SpecLot })
  specSells (fs.filter (fun f => !f.isBuy)) queue 0

/-- Projection of a (finite-valued) fill onto the spec's data model. -/
def specOfFill (f : Fill) : SpecFill :=
  { price := f.px.getD 0, size := f.sz.getD 0, isBuy := isBuySide f.side }

/-- The input fills of one asset: the xyz fills whose coin is that asset. -/
def fillsOf (fills : List Fill) (a : String) : List Fill :=
  (fills.filter isXyzFill).filter (fun f => assetOf f == a)

/-! ### The WebSocket stream manager (src/js/websocket.js)

The manager's mutable fields become a state record; `ws` is modelled by
`wsExists` (is `this.ws` non-null) and `wsReady` (the readyState of the
socket currently referenced).  Each operation or transport event returns
the new state together with the list of observable actions it performs, in
order: frames actually written to the socket, the `console.warn` of a
dropped send, listener-dispatch points, and `setTimeout` reconnect
scheduling.  Registered listeners live in the host application, so
dispatch points are recorded as actions rather than calling functions. -/

/-- A subscription object `{ type, coin? }` as built by the manager;
`JSON.stringify` of these fixed-shape objects is injective, so the
structure itself serves as the `Map` key. -/
structure Subscription where
  chanType : String
  coin : Option String
  deriving DecidableEq

/-- The readyState of the socket referenced by `this.ws`. -/
inductive ReadyState where
  | connecting
  | opened
  | closed
  deriving DecidableEq

/-- Observable actions of the manager. -/
inductive WsAction where
  | frameSent (method : String) (sub : Subscription)
  | warnNotConnected
  | onConnectCalled
  | onDisconnectCalled
  | scheduledReconnect (delayMs : Nat)
  deriving DecidableEq

/-- The mutable state of a `WebSocketManager` instance. -/
structure WSManager where
  wsExists : Bool
  wsReady : ReadyState
  subscriptions : List Subscription
  reconnectAttempts : Nat
  maxReconnectAttempts : Nat
  reconnectDelay : Nat
  isConnected : Bool
  deriving DecidableEq

/-- The constructor state (src/js/websocket.js:6-20). -/
def initManager : WSManager :=
  { wsExists := false, wsReady := .closed, subscriptions := [],
    reconnectAttempts := 0, maxReconnectAttempts := 5, reconnectDelay := 1000,
    isConnected := false }

/-- `this.send(message)` (src/js/websocket.js:88-94): writes the frame only
when the socket exists and is OPEN, otherwise warns and drops it. -/
def sendMsg (st : WSManager) (method : String) (sub : Subscription) : List WsAction :=
  if st.wsExists && st.wsReady == .opened then [.frameSent method sub]
  else [.warnNotConnected]

/-- `connect()` (src/js/websocket.js:25-83): a no-op when the current
socket is OPEN, otherwise creates a fresh CONNECTING socket.  Note that it
does not touch `reconnectAttempts`. -/
def connect (st : WSManager) : WSManager × List WsAction :=
  if st.wsExists && st.wsReady == .opened then (st, [])
  else ({ st with wsExists := true, wsReady := .connecting }, [])

/-- The transport opens: readyState becomes OPEN, then the `ws.onopen`
handler (src/js/websocket.js:36-50) runs: set `isConnected`, zero the
attempt counter, re-send every desired subscription through `send`, then
invoke the `onConnect` listeners. -/
def handleOpen (st : WSManager) : WSManager × List WsAction :=
  let st1 := { st with wsReady := .opened, isConnected := true, reconnectAttempts := 0 }
  (st1, (st1.subscriptions.map fun s => WsAction.frameSent "subscribe" s) ++ [.onConnectCalled])

/-- The transport closes: if the manager still references the socket its
readyState becomes CLOSED; then the `ws.onclose` handler
(src/js/websocket.js:61-73) runs: clear `isConnected`, invoke the
`onDisconnect` listeners, and if `reconnectAttempts < maxReconnectAttempts`
increment the counter and schedule `connect` after
`reconnectDelay * 2^(attempts-1)` ms. -/
def transportClosed (st : WSManager) : WSManager × List WsAction :=
  let st0 := if st.wsExists then { st with wsReady := .closed } else st
  let st1 := { st0 with isConnected := false }
  if st1.reconnectAttempts < st1.maxReconnectAttempts then
    let st2 := { st1 with reconnectAttempts := st1.reconnectAttempts + 1 }
    (st2, [.onDisconnectCalled,
           .scheduledReconnect (st2.reconnectDelay * 2 ^ (st2.reconnectAttempts - 1))])
  else (st1, [.onDisconnectCalled])

/-- `disconnect()` (src/js/websocket.js:236-242): close the socket, null
the reference, clear `isConnected`; the desired-subscription set is not
touched.  The closing socket's `onclose` handler fires later as a separate
`transportClosed` event. -/
def disconnect (st : WSManager) : WSManager × List WsAction :=
  if st.wsExists then
    ({ st with wsExists := false, isConnected := false }, [])
  else (st, [])

/-- `subscribeTrades(coin)` (src/js/websocket.js:127-138): add the identity
to the desired set and send a subscribe frame only when it is new. -/
def subscribeTrades (st : WSManager) (coin : String) : WSManager × List WsAction :=
  let sub : Subscription := { chanType := "trades", coin := some coin }
  if st.subscriptions.contains sub then (st, [])
  else
    let st1 := { st with subscriptions := st.subscriptions ++ [sub] }
    (st1, sendMsg st1 "subscribe" sub)

/-- `unsubscribe(subscription)` (src/js/websocket.js:189-196): delete the
key from the desired set, then call `send` unconditionally. -/
def unsubscribe (st : WSManager) (sub : Subscription) : WSManager × List WsAction :=
  let st1 := { st with subscriptions := st.subscriptions.filter (fun s => s ≠ sub) }
  (st1, sendMsg st1 "unsubscribe" sub)

/-- A trade record carried by a trades-channel message. -/
structure Trade where
  coin : Option String
  px : JsNum
  sz : JsNum
  deriving DecidableEq

/-- The `data` field of an inbound message on the trades channel: one trade
record or an array of trade records. -/
inductive WsData where
  | one (t : Trade)
  | many (ts : List Trade)
  deriving DecidableEq

/-- `handleMessage` (src/js/websocket.js:99-122) restricted to what is
delivered to `onTrade` listeners: `subscriptionResponse` is logged only;
`trades` passes `data.data` to each registered `onTrade` callback in
registration order; `allMids` and `l2Book` dispatch is guarded by
`this.callbacks.onMids` / `this.callbacks.onL2Book`, which the constructor
never defines, so nothing is ever delivered there. -/
def handleMessage (onTradeListeners : Nat) (channel : String) (d : WsData) : List WsData :=
  if channel == "subscriptionResponse" then []
  else if channel == "trades" then List.replicate onTradeListeners d
  else []

/-- The application's registered `onTrade` listener (src/js/app.js:215-221):
an array payload is unfolded element by element into `addTrade` calls, a
single record is passed through once.  The result is the argument sequence
of the `addTrade` invocations. -/
def appOnTrade (d : WsData) : List Trade :=
  match d with
  | .many ts => ts
  | .one t => [t]

/-- The individual trade records a trades-channel message yields across all
registered listeners, in delivery order. -/
def tradeRecordsDelivered (onTradeListeners : Nat) (channel : String) (d : WsData) :
    List Trade :=
  (handleMessage onTradeListeners channel d).flatMap appOnTrade

/-! ### Derived notions used to state the claims -/

/-- The `price * size` value of one fill (src/js/api.js:237). -/
def fillValue (f : Fill) : JsNum := jmul f.px f.sz

/-- Sum of a list of JavaScript numbers, accumulated left to right from 0
as the source's `+=` loops do. -/
def jsum (l : List JsNum) : JsNum := l.foldl jadd (some 0)

/-- The entry `{ price, size, value }` a fill pushes. -/
def fillEntry (f : Fill) : Entry := { price := f.px, size := f.sz, value := fillValue f }

/-- What ingestion should produce for one asset, phrased directly over that
asset's fill list. -/
def assetData (fs : List Fill) : AssetPnl :=
  { buys := (fs.filter fun f => isBuySide f.side).map fillEntry,
    sells := (fs.filter fun f => !isBuySide f.side).map fillEntry,
    realizedPnl := some 0,
    volume := jsum (fs.map fillValue),
    trades := fs.length }

/-- The whole ingestion pass over the already-filtered xyz fills. -/
def ingestAll (ys : List Fill) : IngestState :=
  ys.foldl ingestFill { m := [], totalVolume := some 0, totalTrades := 0 }

/-! ### Arithmetic of `jadd` -/

theorem jadd_assoc (a b c : JsNum) : jadd (jadd a b) c = jadd a (jadd b c) := by
  cases a <;> cases b <;> cases c <;> simp [jadd, add_assoc]

theorem jadd_comm (a b : JsNum) : jadd a b = jadd b a := by
  cases a <;> cases b <;> simp [jadd, add_comm]

theorem jadd_right_comm (b a1 a2 : JsNum) :
    jadd (jadd b a1) a2 = jadd (jadd b a2) a1 := by
  rw [jadd_assoc, jadd_assoc, jadd_comm a1 a2]

theorem foldl_jadd_eq (l : List JsNum) (z : JsNum) :
    l.foldl jadd z = jadd z (jsum l) := by
  induction l generalizing z with
  | nil => cases z <;> simp [jsum, jadd]
  | cons x xs ih =>
    simp only [jsum, List.foldl_cons] at *
    rw [ih (jadd z x), ih (jadd (some 0) x)]
    rw [← jadd_assoc, ← jadd_assoc]
    congr 1
    cases z <;> cases x <;> simp [jadd]

theorem jsum_cons (x : JsNum) (l : List JsNum) :
    jsum (x :: l) = jadd x (jsum l) := by
  have := foldl_jadd_eq l (jadd (some 0) x)
  simp only [jsum, List.foldl_cons]
  rw [this]
  congr 1
  cases x <;> simp [jadd]

theorem jsum_append (l1 l2 : List JsNum) :
    jsum (l1 ++ l2) = jadd (jsum l1) (jsum l2) := by
  simp only [jsum, List.foldl_append]
  rw [foldl_jadd_eq l2 (List.foldl jadd (some 0) l1)]
  rfl

theorem jsum_snoc (l : List JsNum) (x : JsNum) :
    jsum (l ++ [x]) = jadd (jsum l) x := by
  rw [jsum_append]
  congr 1
  cases x <;> simp [jsum, jadd]

theorem jsum_perm {l1 l2 : List JsNum} (h : l1.Perm l2) : jsum l1 = jsum l2 := by
  induction h with
  | nil => rfl
  | cons x _ ih => rw [jsum_cons, jsum_cons, ih]
  | swap x y l => rw [jsum_cons, jsum_cons, jsum_cons, jsum_cons,
      ← jadd_assoc, ← jadd_assoc, jadd_comm y x]
  | trans _ _ ih1 ih2 => rw [ih1, ih2]

theorem jsum_flatMap (ks : List String) (g : String → List JsNum) :
    jsum (ks.flatMap g) = jsum (ks.map fun a => jsum (g a)) := by
  induction ks with
  | nil => rfl
  | cons a rest ih =>
    simp only [List.flatMap_cons, List.map_cons]
    rw [jsum_append, jsum_cons, ih]

/-! ### The second pass of `calculatePNLFromFills` -/

theorem second_pass_eq (m : List (String × AssetPnl)) (acc : List (String × AssetPnl))
    (z : JsNum) :
    m.foldl
      (fun acc p =>
        let r := processSells p.2.sells p.2.buys (some 0)
        (acc.1 ++ [(p.1, { p.2 with buys := r.2.1 ++ r.2.2, realizedPnl := r.1 })],
         jadd acc.2 r.1))
      (acc, z) =
    (acc ++ m.map (fun p =>
        (p.1, { p.2 with buys := assetFinalBuys p.2, realizedPnl := assetRealized p.2 })),
     jadd z (jsum (m.map fun p => assetRealized p.2))) := by
  induction m generalizing acc z with
  | nil =>
    simp only [List.foldl_nil, List.map_nil, List.append_nil]
    congr 1
    cases z <;> simp [jsum, jadd]
  | cons p rest ih =>
    simp only [List.foldl_cons, List.map_cons]
    rw [ih]
    simp only [List.append_assoc, List.singleton_append]
    rw [jsum_cons, ← jadd_assoc]
    rfl

theorem calculatePNL_eq (fills : List Fill) :
    calculatePNLFromFills fills =
      { byAsset := (ingestAll (fills.filter isXyzFill)).m.map
          (fun p =>
            (p.1, { p.2 with buys := assetFinalBuys p.2, realizedPnl := assetRealized p.2 })),
        totalRealizedPnl :=
          jsum ((ingestAll (fills.filter isXyzFill)).m.map fun p => assetRealized p.2),
        totalVolume := (ingestAll (fills.filter isXyzFill)).totalVolume,
        totalTrades := (ingestAll (fills.filter isXyzFill)).totalTrades } := by
  unfold calculatePNLFromFills ingestAll
  simp only [second_pass_eq, List.nil_append]
  congr 1
  rw [jadd_comm]
  cases jsum (((fills.filter isXyzFill).foldl ingestFill
      { m := [], totalVolume := some 0, totalTrades := 0 }).m.map fun p => assetRealized p.2) <;>
    simp [jadd]

/-! ### Association-list lemmas for `pnlByAsset` -/

theorem updAssoc_keys (m : List (String × AssetPnl)) (k : String) (g : AssetPnl → AssetPnl) :
    (updAssoc m k g).map Prod.fst = m.map Prod.fst := by
  induction m with
  | nil => rfl
  | cons p rest ih =>
    obtain ⟨a, d⟩ := p
    by_cases h : a = k <;> simp [updAssoc, h, ih]

theorem hasKey_iff (m : List (String × AssetPnl)) (k : String) :
    hasKey m k = true ↔ k ∈ m.map Prod.fst := by
  simp only [hasKey, List.any_eq_true, List.mem_map, beq_iff_eq]

theorem mem_updAssoc_of_ne (m : List (String × AssetPnl)) (k a : String)
    (d : AssetPnl) (g : AssetPnl → AssetPnl) (hne : a ≠ k) :
    (a, d) ∈ updAssoc m k g ↔ (a, d) ∈ m := by
  induction m with
  | nil => simp [updAssoc]
  | cons p rest ih =>
    obtain ⟨b, e⟩ := p
    by_cases h : b = k
    · subst h
      have hab : a ≠ b := hne
      simp [updAssoc, List.mem_cons, ih, Prod.mk.injEq, hab]
    · simp [updAssoc, h, List.mem_cons, ih]

theorem mem_updAssoc_self (m : List (String × AssetPnl)) (k : String)
    (g : AssetPnl → AssetPnl) (hnd : (m.map Prod.fst).Nodup)
    (d : AssetPnl) (hd : (k, d) ∈ m) (d' : AssetPnl) :
    ((k, d') ∈ updAssoc m k g ↔ d' = g d) := by
  induction m with
  | nil => simp at hd
  | cons p rest ih =>
    obtain ⟨b, e⟩ := p
    simp only [List.map_cons, List.nodup_cons] at hnd
    by_cases h : b = k
    · subst h
      have hde : d = e := by
        rcases List.mem_cons.mp hd with he | hm
        · exact congrArg Prod.snd he
        · exact absurd (List.mem_map_of_mem Prod.fst hm) hnd.1
      subst hde
      simp only [updAssoc, if_pos rfl, List.mem_cons, Prod.mk.injEq, true_and,
        ite_true, if_true]
      constructor
      · rintro (h1 | h2)
        · exact h1
        · exact absurd (List.mem_map_of_mem Prod.fst h2) hnd.1
      · exact Or.inl
    · have hm : (k, d) ∈ rest := by
        rcases List.mem_cons.mp hd with he | hm
        · exact absurd (congrArg Prod.fst he).symm h
        · exact hm
      simp only [updAssoc, if_neg h, List.mem_cons, Prod.mk.injEq]
      rw [ih hnd.2 hm]
      constructor
      · rintro (⟨h1, _⟩ | h2)
        · exact absurd h1.symm h
        · exact h2
      · exact Or.inr

theorem updAssoc_append_new (m : List (String × AssetPnl)) (k : String)
    (e : AssetPnl) (g : AssetPnl → AssetPnl) (hk : ¬ k ∈ m.map Prod.fst) :
    updAssoc (m ++ [(k, e)]) k g = m ++ [(k, g e)] := by
  induction m with
  | nil => simp [updAssoc]
  | cons p rest ih =>
    obtain ⟨b, d⟩ := p
    simp only [List.map_cons, List.mem_cons, not_or] at hk
    have hbk : b ≠ k := fun hb => hk.1 hb.symm
    simp [updAssoc, hbk, ih hk.2]

/-! ### Characterizing the ingestion pass -/

theorem assetData_nil : assetData [] = emptyAsset := rfl

theorem assetData_snoc (fs : List Fill) (f : Fill) :
    assetData (fs ++ [f]) =
      addFillToAsset (assetData fs) f.px f.sz (fillValue f) (isBuySide f.side) := by
  unfold assetData addFillToAsset
  cases hb : isBuySide f.side <;>
    simp [List.filter_append, List.filter_cons, hb, jsum_snoc, fillEntry]

theorem ingestAll_snoc (ys : List Fill) (f : Fill) :
    ingestAll (ys ++ [f]) = ingestFill (ingestAll ys) f := by
  unfold ingestAll
  rw [List.foldl_append]
  rfl

theorem filter_snoc_self (ys : List Fill) (f : Fill) :
    (ys ++ [f]).filter (fun g => assetOf g == assetOf f) =
      ys.filter (fun g => assetOf g == assetOf f) ++ [f] := by
  rw [List.filter_append, List.filter_cons]
  simp

theorem filter_snoc_other (ys : List Fill) (f : Fill) (a : String) (ha : a ≠ assetOf f) :
    (ys ++ [f]).filter (fun g => assetOf g == a) = ys.filter (fun g => assetOf g == a) := by
  rw [List.filter_append, List.filter_cons]
  have : (assetOf f == a) = false := by
    simp only [beq_eq_false_iff_ne, ne_eq]
    exact fun hc => ha hc.symm
  simp [this]

/-- Full characterization of the ingestion pass: keys are distinct, every
processed fill's asset has a key, each asset's record is determined by its
own fills, and the running totals are the straightforward sums. -/
theorem ingest_master (ys : List Fill) :
    ((ingestAll ys).m.map Prod.fst).Nodup ∧
    (∀ g ∈ ys, assetOf g ∈ (ingestAll ys).m.map Prod.fst) ∧
    (∀ p ∈ (ingestAll ys).m, p.2 = assetData (ys.filter fun g => assetOf g == p.1)) ∧
    (ingestAll ys).totalVolume = jsum (ys.map fillValue) ∧
    (ingestAll ys).totalTrades = ys.length := by
  induction ys using List.reverseRecOn with
  | nil =>
    exact ⟨by simp [ingestAll], by simp, by simp [ingestAll], rfl, rfl⟩
  | append_singleton ys f ih =>
    obtain ⟨i1, i2, i3, i4, i5⟩ := ih
    rw [ingestAll_snoc]
    have hval : jmul f.px f.sz = fillValue f := rfl
    have htotV : (ingestFill (ingestAll ys) f).totalVolume =
        jsum ((ys ++ [f]).map fillValue) := by
      simp only [ingestFill]
      rw [i4, List.map_append, List.map_cons, List.map_nil, jsum_snoc, hval]
    have htotT : (ingestFill (ingestAll ys) f).totalTrades = (ys ++ [f]).length := by
      simp only [ingestFill]
      rw [i5, List.length_append]
      rfl
    by_cases hkey : hasKey (ingestAll ys).m (assetOf f) = true
    · have hkmem := (hasKey_iff (ingestAll ys).m (assetOf f)).mp hkey
      have hm' : (ingestFill (ingestAll ys) f).m =
          updAssoc (ingestAll ys).m (assetOf f)
            (fun d => addFillToAsset d f.px f.sz (jmul f.px f.sz) (isBuySide f.side)) := by
        simp [ingestFill, hkey]
      refine ⟨?_, ?_, ?_, htotV, htotT⟩
      · rw [hm', updAssoc_keys]
        exact i1
      · intro g hg
        rw [hm', updAssoc_keys]
        rcases List.mem_append.mp hg with hg | hg
        · exact i2 g hg
        · rw [List.mem_singleton.mp hg]
          exact hkmem
      · intro p hp
        rw [hm'] at hp
        obtain ⟨a, d'⟩ := p
        simp only
        by_cases hak : a = assetOf f
        · obtain ⟨q, hq, hqa⟩ := List.mem_map.mp hkmem
          obtain ⟨b, d⟩ := q
          have hb : b = assetOf f := hqa
          rw [hb] at hq
          rw [hak] at hp
          have hthis := (mem_updAssoc_self (ingestAll ys).m (assetOf f) _ i1 d hq d').mp hp
          have hd := i3 (assetOf f, d) hq
          simp only at hd
          rw [hak, hthis, hd, filter_snoc_self, assetData_snoc, hval]
        · have hp2 := (mem_updAssoc_of_ne (ingestAll ys).m (assetOf f) a d' _ hak).mp hp
          have hd := i3 (a, d') hp2
          simp only at hd
          rw [hd, filter_snoc_other ys f a hak]
    · have hknot : ¬ assetOf f ∈ (ingestAll ys).m.map Prod.fst :=
        fun hc => hkey ((hasKey_iff (ingestAll ys).m (assetOf f)).mpr hc)
      have hkf : hasKey (ingestAll ys).m (assetOf f) = false :=
        Bool.not_eq_true _ ▸ eq_false_of_ne_true hkey
      have hm' : (ingestFill (ingestAll ys) f).m =
          (ingestAll ys).m ++ [(assetOf f,
            addFillToAsset emptyAsset f.px f.sz (jmul f.px f.sz) (isBuySide f.side))] := by
        simp only [ingestFill, hkf, Bool.false_eq_true, if_false]
        rw [updAssoc_append_new (ingestAll ys).m (assetOf f) emptyAsset _ hknot]
      have hysk : ys.filter (fun g => assetOf g == assetOf f) = [] := by
        rw [List.filter_eq_nil_iff]
        intro g hg hgk
        exact hknot ((beq_iff_eq.mp hgk) ▸ i2 g hg)
      refine ⟨?_, ?_, ?_, htotV, htotT⟩
      · rw [hm', List.map_append]
        simp only [List.map_cons, List.map_nil]
        rw [List.nodup_append]
        refine ⟨i1, List.nodup_singleton (assetOf f), ?_⟩
        intro a ha hb
        rw [List.mem_singleton.mp hb] at ha
        exact hknot ha
      · intro g hg
        rw [hm', List.map_append]
        rcases List.mem_append.mp hg with hg | hg
        · exact List.mem_append_left _ (i2 g hg)
        · rw [List.mem_singleton.mp hg]
          exact List.mem_append_right _ (by simp)
      · intro p hp
        rw [hm'] at hp
        obtain ⟨a, d'⟩ := p
        simp only
        rcases List.mem_append.mp hp with hp | hp
        · have hak : a ≠ assetOf f := by
            intro hc
            exact hknot (hc ▸ List.mem_map_of_mem Prod.fst hp)
          have hd := i3 (a, d') hp
          simp only at hd
          rw [hd, filter_snoc_other ys f a hak]
        · have heq := List.mem_singleton.mp hp
          have ha : a = assetOf f := congrArg Prod.fst heq
          have hd : d' = addFillToAsset emptyAsset f.px f.sz (jmul f.px f.sz) (isBuySide f.side) :=
            congrArg Prod.snd heq
          rw [hd, ha, filter_snoc_self, hysk, List.nil_append]
          have h1 : assetData ([] ++ [f]) =
              addFillToAsset (assetData []) f.px f.sz (fillValue f) (isBuySide f.side) :=
            assetData_snoc [] f
          rw [List.nil_append] at h1
          rw [h1, assetData_nil, hval]


/-! ### Step lemmas for the two matching loops -/

theorem sellLoop_nil_queue (sp r pnl : JsNum) : sellLoop sp r [] pnl = (pnl, [], []) := by
  rw [sellLoop.eq_def]
  split <;> rfl

theorem sellLoop_not_pos (sp r pnl : JsNum) (queue : List Entry)
    (h : ¬ jgt r jzero = true) : sellLoop sp r queue pnl = (pnl, [], queue) := by
  rw [sellLoop.eq_def, dif_neg h]

theorem sellLoop_cons_pop (sp r pnl : JsNum) (b : Entry) (rest : List Entry)
    (h : jgt r jzero = true) (h2 : jle (jsub b.size (jmin r b.size)) jzero = true) :
    sellLoop sp r (b :: rest) pnl =
      ((sellLoop sp (jsub r (jmin r b.size)) rest
          (jadd pnl (jmul (jsub sp b.price) (jmin r b.size)))).1,
       { price := b.price, size := jsub b.size (jmin r b.size), value := b.value } ::
         (sellLoop sp (jsub r (jmin r b.size)) rest
           (jadd pnl (jmul (jsub sp b.price) (jmin r b.size)))).2.1,
       (sellLoop sp (jsub r (jmin r b.size)) rest
         (jadd pnl (jmul (jsub sp b.price) (jmin r b.size)))).2.2) := by
  rw [sellLoop.eq_def]
  rw [dif_pos h]
  simp only [h2, dif_pos]

theorem sellLoop_cons_keep (sp r pnl : JsNum) (b : Entry) (rest : List Entry)
    (h : jgt r jzero = true) (h2 : ¬ jle (jsub b.size (jmin r b.size)) jzero = true) :
    sellLoop sp r (b :: rest) pnl =
      sellLoop sp (jsub r (jmin r b.size))
        ({ price := b.price, size := jsub b.size (jmin r b.size), value := b.value } :: rest)
        (jadd pnl (jmul (jsub sp b.price) (jmin r b.size))) := by
  rw [sellLoop.eq_def]
  rw [dif_pos h]
  simp only [h2, dif_neg]
  simp

theorem specMatchSell_nil (sp r pnl : ℚ) : specMatchSell sp r [] pnl = (pnl, []) := by
  rw [specMatchSell.eq_def]
  split <;> rfl

theorem specMatchSell_not_pos (sp r pnl : ℚ) (queue : List SpecLot) (h : ¬ 0 < r) :
    specMatchSell sp r queue pnl = (pnl, queue) := by
  rw [specMatchSell.eq_def, dif_neg h]

theorem specMatchSell_cons_pop (sp r pnl : ℚ) (lot : SpecLot) (rest : List SpecLot)
    (h : 0 < r) (h2 : lot.size - min r lot.size = 0) :
    specMatchSell sp r (lot :: rest) pnl =
      specMatchSell sp (r - min r lot.size) rest
        (pnl + (sp - lot.price) * min r lot.size) := by
  rw [specMatchSell.eq_def]
  rw [dif_pos h]
  simp only [h2, dif_pos]

theorem specMatchSell_cons_keep (sp r pnl : ℚ) (lot : SpecLot) (rest : List SpecLot)
    (h : 0 < r) (h2 : ¬ lot.size - min r lot.size = 0) :
    specMatchSell sp r (lot :: rest) pnl =
      specMatchSell sp (r - min r lot.size)
        ({ price := lot.price, size := lot.size - min r lot.size } :: rest)
        (pnl + (sp - lot.price) * min r lot.size) := by
  rw [specMatchSell.eq_def]
  rw [dif_pos h]
  simp only [h2, dif_neg]
  simp

/-! ### Relating the matching loop to the spec reference -/

/-- The lot a finite-valued entry denotes. -/
def lotOf (e : Entry) : SpecLot := { price := e.price.getD 0, size := e.size.getD 0 }

/-- The spec-side sell record a finite-valued sell entry denotes. -/
def sellFillOf (e : Entry) : SpecFill :=
  { price := e.price.getD 0, size := e.size.getD 0, isBuy := false }

theorem sellLoop_spec (sp : ℚ) (queue : List Entry) :
    ∀ (r pnl : ℚ), (∀ e ∈ queue, e.price.isSome ∧ e.size.isSome) →
    (sellLoop (some sp) (some r) queue (some pnl)).1 =
      some (specMatchSell sp r (queue.map lotOf) pnl).1 ∧
    (sellLoop (some sp) (some r) queue (some pnl)).2.2.map lotOf =
      (specMatchSell sp r (queue.map lotOf) pnl).2 ∧
    (∀ e ∈ (sellLoop (some sp) (some r) queue (some pnl)).2.2,
      e.price.isSome ∧ e.size.isSome) := by
  induction queue with
  | nil =>
    intro r pnl _
    rw [sellLoop_nil_queue, List.map_nil, specMatchSell_nil]
    simp
  | cons b rest ih =>
    intro r pnl hq
    obtain ⟨hbp, hbs⟩ := hq b (List.mem_cons_self b rest)
    obtain ⟨bp, hbp⟩ := Option.isSome_iff_exists.mp hbp
    obtain ⟨bs, hbs⟩ := Option.isSome_iff_exists.mp hbs
    have hrest : ∀ e ∈ rest, e.price.isSome ∧ e.size.isSome :=
      fun e he => hq e (List.mem_cons_of_mem b he)
    have hlotb : lotOf b = { price := bp, size := bs } := by
      simp [lotOf, hbp, hbs]
    by_cases hr : 0 < r
    · have hgt : jgt (some r) jzero = true := by simp [jgt, jzero, hr]
      have hsub : jsub b.size (jmin (some r) b.size) = some (bs - min r bs) := by
        simp [jsub, jmin, hbs]
      have hr2 : jsub (some r) (jmin (some r) b.size) = some (r - min r bs) := by
        simp [jsub, jmin, hbs]
      have hpnl2 : jadd (some pnl) (jmul (jsub (some sp) b.price) (jmin (some r) b.size)) =
          some (pnl + (sp - bp) * min r bs) := by
        simp [jadd, jmul, jsub, jmin, hbp, hbs]
      by_cases hpop : bs - min r bs ≤ 0
      · have hz : bs - min r bs = 0 := by
          have : min r bs ≤ bs := min_le_right r bs
          linarith
        have hle : jle (jsub b.size (jmin (some r) b.size)) jzero = true := by
          rw [hsub]
          simp only [jle, jzero, decide_eq_true_eq]
          exact hpop
        rw [sellLoop_cons_pop (some sp) (some r) (some pnl) b rest hgt hle,
          hr2, hpnl2]
        rw [List.map_cons, hlotb,
          specMatchSell_cons_pop sp r pnl { price := bp, size := bs } (rest.map lotOf) hr hz]
        exact ih (r - min r bs) (pnl + (sp - bp) * min r bs) hrest
      · have hle : ¬ jle (jsub b.size (jmin (some r) b.size)) jzero = true := by
          rw [hsub]
          simp only [jle, jzero, decide_eq_true_eq]
          exact hpop
        rw [sellLoop_cons_keep (some sp) (some r) (some pnl) b rest hgt hle,
          hr2, hpnl2, hsub]
        have hnz : ¬ bs - min r bs = 0 := fun hc => hpop (le_of_eq hc)
        rw [List.map_cons, hlotb,
          specMatchSell_cons_keep sp r pnl { price := bp, size := bs } (rest.map lotOf) hr hnz]
        have hmr : min r bs = r := by
          rcases min_cases r bs with ⟨h1, _⟩ | ⟨h1, h2⟩
          · exact h1
          · exact absurd (by rw [h1]; ring) hnz
        have hnot2 : ¬ 0 < r - min r bs := by
          rw [hmr]
          simp
        have hgt2 : ¬ jgt (some (r - min r bs)) jzero = true := by
          simp [jgt, jzero, hnot2]
        rw [sellLoop_not_pos _ _ _ _ hgt2, specMatchSell_not_pos _ _ _ _ hnot2]
        refine ⟨rfl, ?_, ?_⟩
        · simp [lotOf, hbp]
        · intro e he
          rcases List.mem_cons.mp he with he | he
          · rw [he]
            simp [hbp]
          · exact hrest e he
    · have hgt : ¬ jgt (some r) jzero = true := by simp [jgt, jzero, hr]
      rw [sellLoop_not_pos _ _ _ _ hgt, specMatchSell_not_pos _ _ _ _ hr]
      exact ⟨rfl, rfl, hq⟩

theorem processSells_spec (sells : List Entry) :
    ∀ (buys : List Entry) (z : ℚ),
    (∀ e ∈ sells, e.price.isSome ∧ e.size.isSome) →
    (∀ e ∈ buys, e.price.isSome ∧ e.size.isSome) →
    (processSells sells buys (some z)).1 =
      some (specSells (sells.map sellFillOf) (buys.map lotOf) z) := by
  induction sells with
  | nil =>
    intro buys z _ _
    rfl
  | cons s rest ih =>
    intro buys z hs hb
    obtain ⟨hsp, hss⟩ := hs s (List.mem_cons_self s rest)
    obtain ⟨spv, hspv⟩ := Option.isSome_iff_exists.mp hsp
    obtain ⟨ssv, hssv⟩ := Option.isSome_iff_exists.mp hss
    have hrest : ∀ e ∈ rest, e.price.isSome ∧ e.size.isSome :=
      fun e he => hs e (List.mem_cons_of_mem s he)
    obtain ⟨h1, h2, h3⟩ := sellLoop_spec spv buys ssv z hb
    have hR : specSells ((s :: rest).map sellFillOf) (buys.map lotOf) z =
        specSells (rest.map sellFillOf)
          (specMatchSell spv ssv (buys.map lotOf) z).2
          (specMatchSell spv ssv (buys.map lotOf) z).1 := by
      simp only [List.map_cons, specSells, sellFillOf, hspv, hssv, Option.getD_some]
    rw [hR]
    show (processSells rest (sellLoop s.price s.size buys (some z)).2.2
        (sellLoop s.price s.size buys (some z)).1).1 = _
    rw [hspv, hssv, h1, ih _ _ hrest h3, h2]

theorem assetRealized_spec (fs : List Fill)
    (hfin : ∀ f ∈ fs, f.px.isSome ∧ f.sz.isSome) :
    assetRealized (assetData fs) = some (specFifoPnl (fs.map specOfFill)) := by
  unfold assetRealized assetData specFifoPnl
  simp only
  have hsfin : ∀ e ∈ (fs.filter fun f => !isBuySide f.side).map fillEntry,
      e.price.isSome ∧ e.size.isSome := by
    intro e he
    obtain ⟨f, hf, hfe⟩ := List.mem_map.mp he
    obtain ⟨h1, h2⟩ := hfin f (List.mem_of_mem_filter hf)
    rw [← hfe]
    exact ⟨h1, h2⟩
  have hbfin : ∀ e ∈ (fs.filter fun f => isBuySide f.side).map fillEntry,
      e.price.isSome ∧ e.size.isSome := by
    intro e he
    obtain ⟨f, hf, hfe⟩ := List.mem_map.mp he
    obtain ⟨h1, h2⟩ := hfin f (List.mem_of_mem_filter hf)
    rw [← hfe]
    exact ⟨h1, h2⟩
  rw [processSells_spec _ _ 0 hsfin hbfin]
  congr 1
  have hsells : ((fs.filter fun f => !isBuySide f.side).map fillEntry).map sellFillOf =
      (fs.map specOfFill).filter (fun f => !f.isBuy) := by
    rw [List.map_map, List.filter_map]
    apply List.map_congr_left
    intro f hf
    have hside : isBuySide f.side = false := by
      have := List.of_mem_filter hf
      simpa using this
    simp [Function.comp, sellFillOf, fillEntry, specOfFill, hside]
  have hbuys : ((fs.filter fun f => isBuySide f.side).map fillEntry).map lotOf =
      ((fs.map specOfFill).filter (fun f => f.isBuy)).map
        (fun f => { price := f.price, size := f.size : SpecLot }) := by
    rw [List.map_map, List.filter_map, List.map_map]
    rfl
  rw [hsells, hbuys]

theorem byAsset_char (fills : List Fill) (p : String × AssetPnl)
    (hp : p ∈ (calculatePNLFromFills fills).byAsset) :
    p.2 = { assetData (fillsOf fills p.1) with
            buys := assetFinalBuys (assetData (fillsOf fills p.1)),
            realizedPnl := assetRealized (assetData (fillsOf fills p.1)) } := by
  rw [calculatePNL_eq] at hp
  simp only [List.mem_map] at hp
  obtain ⟨q, hq, hqe⟩ := hp
  have hchar := (ingest_master (fills.filter isXyzFill)).2.2.1 q hq
  have h1 : p.1 = q.1 := by rw [← hqe]
  have h2 : p.2 = { q.2 with buys := assetFinalBuys q.2, realizedPnl := assetRealized q.2 } := by
    rw [← hqe]
  rw [h2, h1]
  rw [hchar]
  rfl


/-! ### Regrouping: the running totals are the sums of the per-asset values -/

theorem flatMap_congr_on (l : List String) (f g : String → List Fill)
    (h : ∀ a ∈ l, f a = g a) : l.flatMap f = l.flatMap g := by
  induction l with
  | nil => rfl
  | cons a rest ih =>
    simp only [List.flatMap_cons]
    rw [h a (List.mem_cons_self a rest), ih (fun b hb => h b (List.mem_cons_of_mem a hb))]

theorem perm_flatMap_filter (K : List String) :
    ∀ ys : List Fill, K.Nodup → (∀ g ∈ ys, assetOf g ∈ K) →
    ys.Perm (K.flatMap fun a => ys.filter (fun g => assetOf g == a)) := by
  induction K with
  | nil =>
    intro ys _ hcov
    cases ys with
    | nil => simp
    | cons y ys => exact absurd (hcov y (List.mem_cons_self y ys)) (by simp)
  | cons a rest ih =>
    intro ys hnd hcov
    obtain ⟨hna, hndr⟩ := List.nodup_cons.mp hnd
    simp only [List.flatMap_cons]
    have hsplit : ys.Perm
        (ys.filter (fun g => assetOf g == a) ++ ys.filter (fun g => !(assetOf g == a))) :=
      (List.filter_append_perm (fun g => assetOf g == a) ys).symm
    refine hsplit.trans (List.Perm.append_left _ ?_)
    have hcov' : ∀ g ∈ ys.filter (fun g => !(assetOf g == a)), assetOf g ∈ rest := by
      intro g hg
      have hmem := List.mem_of_mem_filter hg
      have hne : (assetOf g == a) = false := by
        have := List.of_mem_filter hg
        simpa using this
      rcases List.mem_cons.mp (hcov g hmem) with hc | hc
      · exact absurd (beq_iff_eq.mpr hc) (by simp [hne])
      · exact hc
    have ih' := ih (ys.filter (fun g => !(assetOf g == a))) hndr hcov'
    refine ih'.trans ?_
    have heq : ∀ b ∈ rest,
        (ys.filter (fun g => !(assetOf g == a))).filter (fun g => assetOf g == b) =
          ys.filter (fun g => assetOf g == b) := by
      intro b hb
      have hba : b ≠ a := fun hc => hna (hc ▸ hb)
      rw [List.filter_filter]
      apply List.filter_congr
      intro g _
      by_cases hgb : assetOf g = b
      · have h1 : (assetOf g == b) = true := beq_iff_eq.mpr hgb
        have h2 : (assetOf g == a) = false := by
          simp only [beq_eq_false_iff_ne, ne_eq]
          rw [hgb]
          exact hba
        simp [h1, h2]
      · have h1 : (assetOf g == b) = false := by
          simp only [beq_eq_false_iff_ne, ne_eq]
          exact hgb
        simp [h1]
    rw [flatMap_congr_on rest _ _ heq]

theorem totalVolume_regroup (fills : List Fill) :
    (calculatePNLFromFills fills).totalVolume =
      jsum ((calculatePNLFromFills fills).byAsset.map fun p => p.2.volume) := by
  obtain ⟨i1, i2, i3, i4, _⟩ := ingest_master (fills.filter isXyzFill)
  rw [calculatePNL_eq]
  simp only
  rw [i4]
  have hmapv : ((ingestAll (fills.filter isXyzFill)).m.map
      (fun p =>
        (p.1,
          { p.2 with buys := assetFinalBuys p.2, realizedPnl := assetRealized p.2 }))).map
      (fun p => p.2.volume) =
      (ingestAll (fills.filter isXyzFill)).m.map (fun p =>
        jsum (((fills.filter isXyzFill).filter (fun g => assetOf g == p.1)).map fillValue)) := by
    rw [List.map_map]
    apply List.map_congr_left
    intro p hp
    have := i3 p hp
    simp only [Function.comp]
    rw [this]
    rfl
  rw [hmapv]
  have hKmap : (ingestAll (fills.filter isXyzFill)).m.map (fun p =>
      jsum (((fills.filter isXyzFill).filter (fun g => assetOf g == p.1)).map fillValue)) =
      ((ingestAll (fills.filter isXyzFill)).m.map Prod.fst).map (fun a =>
        jsum (((fills.filter isXyzFill).filter (fun g => assetOf g == a)).map fillValue)) := by
    rw [List.map_map]
    rfl
  rw [hKmap]
  have hperm := perm_flatMap_filter ((ingestAll (fills.filter isXyzFill)).m.map Prod.fst)
    (fills.filter isXyzFill) i1 i2
  have hperm2 : ((fills.filter isXyzFill).map fillValue).Perm
      ((((ingestAll (fills.filter isXyzFill)).m.map Prod.fst).flatMap
        (fun a => (fills.filter isXyzFill).filter (fun g => assetOf g == a))).map fillValue) :=
    hperm.map fillValue
  rw [jsum_perm hperm2, List.map_flatMap, jsum_flatMap]

theorem totalTrades_regroup (fills : List Fill) :
    (calculatePNLFromFills fills).totalTrades =
      ((calculatePNLFromFills fills).byAsset.map fun p => p.2.trades).sum := by
  obtain ⟨i1, i2, i3, _, i5⟩ := ingest_master (fills.filter isXyzFill)
  rw [calculatePNL_eq]
  simp only
  rw [i5]
  have hmapt : ((ingestAll (fills.filter isXyzFill)).m.map
      (fun p =>
        (p.1,
          { p.2 with buys := assetFinalBuys p.2, realizedPnl := assetRealized p.2 }))).map
      (fun p => p.2.trades) =
      ((ingestAll (fills.filter isXyzFill)).m.map Prod.fst).map (fun a =>
        ((fills.filter isXyzFill).filter (fun g => assetOf g == a)).length) := by
    rw [List.map_map, List.map_map]
    apply List.map_congr_left
    intro p hp
    have := i3 p hp
    simp only [Function.comp]
    rw [this]
    rfl
  rw [hmapt]
  have hperm := perm_flatMap_filter ((ingestAll (fills.filter isXyzFill)).m.map Prod.fst)
    (fills.filter isXyzFill) i1 i2
  rw [hperm.length_eq, List.length_flatMap]
  congr 1

theorem totalRealizedPnl_regroup (fills : List Fill) :
    (calculatePNLFromFills fills).totalRealizedPnl =
      jsum ((calculatePNLFromFills fills).byAsset.map fun p => p.2.realizedPnl) := by
  rw [calculatePNL_eq]
  simp only
  rw [List.map_map]
  rfl


/-! ### Concrete inputs used by the claims -/

/-- The spec's FIFO example: buys at 10 and 20 of size 1, then a sell of
size 2 at price 15, all on one xyz asset (side "A" is a sell). -/
def fifoExampleFills : List Fill :=
  [ { coin := some "xyz:GOLD", px := some 10, sz := some 1, side := "B" },
    { coin := some "xyz:GOLD", px := some 20, sz := some 1, side := "B" },
    { coin := some "xyz:GOLD", px := some 15, sz := some 2, side := "A" } ]

/-- The per-asset record the FIFO example produces.  The sell consumes
both lots, and because the matching loop decrements the `size` of entry
objects shared with the stored array, the returned buys carry their
post-matching sizes: 0 and 0. -/
def fifoExampleAsset : AssetPnl :=
  { buys := [{ price := some 10, size := some 0, value := some 10 },
             { price := some 20, size := some 0, value := some 20 }],
    sells := [{ price := some 15, size := some 2, value := some 30 }],
    realizedPnl := some 0, volume := some 60, trades := 3 }

/-- A negative-size buy followed by a unit sell on one xyz asset. -/
def negBuyFills : List Fill :=
  [ { coin := some "xyz:GOLD", px := some 10, sz := some (-1), side := "B" },
    { coin := some "xyz:GOLD", px := some 20, sz := some 1, side := "A" } ]

theorem processSells_no_buys (sells : List Entry) (pnl : JsNum) :
    (processSells sells [] pnl).1 = pnl := by
  induction sells generalizing pnl with
  | nil => rfl
  | cons s rest ih =>
    show (processSells rest (sellLoop s.price s.size [] pnl).2.2
        (sellLoop s.price s.size [] pnl).1).1 = pnl
    rw [sellLoop_nil_queue]
    exact ih pnl

/-! ### Claim theorems: the PNL engine -/

/-- The FIFO example's per-asset record before the matching pass. -/
def fifoBase : AssetPnl :=
  { buys := [{ price := some 10, size := some 1, value := some 10 },
             { price := some 20, size := some 1, value := some 20 }],
    sells := [{ price := some 15, size := some 2, value := some 30 }],
    realizedPnl := some 0, volume := some 60, trades := 3 }

set_option maxHeartbeats 1000000 in
theorem fifo_ingest_eval : ingestAll (fifoExampleFills.filter isXyzFill) =
    { m := [("xyz:GOLD", fifoBase)], totalVolume := some 60, totalTrades := 3 } := by
  norm_num [ingestAll, fifoExampleFills, fifoBase, ingestFill,
    (show isXyzFill { coin := some "xyz:GOLD", px := some 10, sz := some 1, side := "B" } = true from by decide),
    (show isXyzFill { coin := some "xyz:GOLD", px := some 20, sz := some 1, side := "B" } = true from by decide),
    (show isXyzFill { coin := some "xyz:GOLD", px := some 15, sz := some 2, side := "A" } = true from by decide),
    (show isBuySide "A" = false from by decide), (show isBuySide "B" = true from by decide),
    assetOf, hasKey, updAssoc, emptyAsset, addFillToAsset, jadd, jmul]

theorem fifo_sellLoop_eval :
    sellLoop (some 15) (some 2)
      [{ price := some 10, size := some 1, value := some 10 },
       { price := some 20, size := some 1, value := some 20 }] (some 0) =
    (some 0,
     [{ price := some 10, size := some 0, value := some 10 },
      { price := some 20, size := some 0, value := some 20 }], []) := by
  rw [sellLoop_cons_pop _ _ _ _ _ (by norm_num [jgt, jzero])
    (by norm_num [jle, jsub, jmin, jzero])]
  norm_num [jsub, jmin, jadd, jmul]
  rw [sellLoop_cons_pop _ _ _ _ _ (by norm_num [jgt, jzero])
    (by norm_num [jle, jsub, jmin, jzero])]
  norm_num [jsub, jmin, jadd, jmul]
  rw [sellLoop_nil_queue]
  simp

theorem fifo_match_eval :
    processSells fifoBase.sells fifoBase.buys (some 0) =
    (some 0,
     [{ price := some 10, size := some 0, value := some 10 },
      { price := some 20, size := some 0, value := some 20 }], []) := by
  show ((sellLoop (some 15) (some 2)
      [{ price := some 10, size := some 1, value := some 10 },
       { price := some 20, size := some 1, value := some 20 }] (some 0)).1,
    (sellLoop (some 15) (some 2)
      [{ price := some 10, size := some 1, value := some 10 },
       { price := some 20, size := some 1, value := some 20 }] (some 0)).2.1 ++ [],
    (sellLoop (some 15) (some 2)
      [{ price := some 10, size := some 1, value := some 10 },
       { price := some 20, size := some 1, value := some 20 }] (some 0)).2.2) = _
  rw [fifo_sellLoop_eval]
  simp

theorem fifo_realized_eval : assetRealized fifoBase = some 0 := by
  unfold assetRealized
  rw [fifo_match_eval]

theorem fifo_finalBuys_eval : assetFinalBuys fifoBase =
    [{ price := some 10, size := some 0, value := some 10 },
     { price := some 20, size := some 0, value := some 20 }] := by
  unfold assetFinalBuys
  rw [fifo_match_eval]
  simp

theorem fifo_byAsset_eval :
    (calculatePNLFromFills fifoExampleFills).byAsset = [("xyz:GOLD", fifoExampleAsset)] := by
  rw [calculatePNL_eq]
  show (ingestAll (fifoExampleFills.filter isXyzFill)).m.map
      (fun p =>
        (p.1, { p.2 with buys := assetFinalBuys p.2, realizedPnl := assetRealized p.2 })) = _
  rw [fifo_ingest_eval]
  simp only [List.map_cons, List.map_nil, fifo_realized_eval, fifo_finalBuys_eval]
  rfl

/-- C1: for every fill sequence whose numeric fields parse (the spec's
`Fill` carries decimal price and size), the per-asset `realizedPnl`
returned by `calculatePNLFromFills` equals the spec's FIFO reference
`specFifoPnl` applied to that asset's fills in input order; in particular
the buys-[10,20]-sizes-[1,1]-then-sell-2-at-15 example yields realizedPnl
0 (matched oldest-first; the example's returned record carries the
post-matching buy sizes 0, 0, as the program's in-place mutation does),
and a sequence of only buys or only sells yields realizedPnl 0 for every
asset. -/
theorem calculatePNL_matches_fifo_reference :
    (∀ fills : List Fill, (fills.all fun f => f.px.isSome && f.sz.isSome) = true →
      ∀ p ∈ (calculatePNLFromFills fills).byAsset,
        p.2.realizedPnl = some (specFifoPnl ((fillsOf fills p.1).map specOfFill))) ∧
    ((calculatePNLFromFills fifoExampleFills).byAsset = [("xyz:GOLD", fifoExampleAsset)]) ∧
    (∀ fills : List Fill, (fills.all fun f => isBuySide f.side) = true →
      ∀ p ∈ (calculatePNLFromFills fills).byAsset, p.2.realizedPnl = some 0) ∧
    (∀ fills : List Fill, (fills.all fun f => !isBuySide f.side) = true →
      ∀ p ∈ (calculatePNLFromFills fills).byAsset, p.2.realizedPnl = some 0) := by
  refine ⟨?_, ?_, ?_, ?_⟩
  · intro fills hall p hp
    rw [byAsset_char fills p hp]
    show assetRealized (assetData (fillsOf fills p.1)) = _
    apply assetRealized_spec
    intro f hf
    have hmem : f ∈ fills := List.mem_of_mem_filter (List.mem_of_mem_filter hf)
    have := (List.all_eq_true.mp hall) f hmem
    exact ⟨(Bool.and_eq_true _ _ ▸ this).1, (Bool.and_eq_true _ _ ▸ this).2⟩
  · exact fifo_byAsset_eval
  · intro fills hall p hp
    rw [byAsset_char fills p hp]
    show assetRealized (assetData (fillsOf fills p.1)) = _
    have hsell : (fillsOf fills p.1).filter (fun f => !isBuySide f.side) = [] := by
      rw [List.filter_eq_nil_iff]
      intro f hf
      have hmem : f ∈ fills := List.mem_of_mem_filter (List.mem_of_mem_filter hf)
      have := (List.all_eq_true.mp hall) f hmem
      simp [this]
    unfold assetRealized assetData
    simp only [hsell, List.map_nil]
    rfl
  · intro fills hall p hp
    rw [byAsset_char fills p hp]
    show assetRealized (assetData (fillsOf fills p.1)) = _
    have hbuy : (fillsOf fills p.1).filter (fun f => isBuySide f.side) = [] := by
      rw [List.filter_eq_nil_iff]
      intro f hf
      have hmem : f ∈ fills := List.mem_of_mem_filter (List.mem_of_mem_filter hf)
      have := (List.all_eq_true.mp hall) f hmem
      simp only [Bool.not_eq_true'] at this
      simp [this]
    unfold assetRealized assetData
    simp only [hbuy, List.map_nil]
    exact processSells_no_buys _ _

theorem calculatePNL_matches_fifo_reference_witness :
    ((fifoExampleFills.all fun f => f.px.isSome && f.sz.isSome) = true) ∧
    (("xyz:GOLD", fifoExampleAsset) ∈ (calculatePNLFromFills fifoExampleFills).byAsset) ∧
    fifoExampleAsset.realizedPnl =
      some (specFifoPnl ((fillsOf fifoExampleFills "xyz:GOLD").map specOfFill)) := by
  refine ⟨by decide, ?_, ?_⟩
  · rw [calculatePNL_matches_fifo_reference.2.1]
    exact List.mem_singleton.mpr rfl
  · exact calculatePNL_matches_fifo_reference.1 fifoExampleFills (by decide)
      ("xyz:GOLD", fifoExampleAsset)
      (by rw [calculatePNL_matches_fifo_reference.2.1]; exact List.mem_singleton.mpr rfl)


/-- The negative-buy example's per-asset record before the matching pass. -/
def negBase : AssetPnl :=
  { buys := [{ price := some 10, size := some (-1), value := some (-10) }],
    sells := [{ price := some 20, size := some 1, value := some 20 }],
    realizedPnl := some 0, volume := some 10, trades := 2 }

set_option maxHeartbeats 1000000 in
theorem neg_ingest_eval : ingestAll (negBuyFills.filter isXyzFill) =
    { m := [("xyz:GOLD", negBase)], totalVolume := some 10, totalTrades := 2 } := by
  norm_num [ingestAll, negBuyFills, negBase, ingestFill,
    (show isXyzFill { coin := some "xyz:GOLD", px := some 10, sz := some (-1), side := "B" } = true from by decide),
    (show isXyzFill { coin := some "xyz:GOLD", px := some 20, sz := some 1, side := "A" } = true from by decide),
    (show isBuySide "A" = false from by decide), (show isBuySide "B" = true from by decide),
    assetOf, hasKey, updAssoc, emptyAsset, addFillToAsset, jadd, jmul]

theorem neg_sellLoop_eval :
    sellLoop (some 20) (some 1)
      [{ price := some 10, size := some (-1), value := some (-10) }] (some 0) =
    (some (-10), [{ price := some 10, size := some 0, value := some (-10) }], []) := by
  rw [sellLoop_cons_pop _ _ _ _ _ (by norm_num [jgt, jzero])
    (by norm_num [jle, jsub, jmin, jzero])]
  norm_num [jsub, jmin, jadd, jmul]
  rw [sellLoop_nil_queue]
  simp

theorem neg_match_eval :
    processSells negBase.sells negBase.buys (some 0) =
    (some (-10), [{ price := some 10, size := some 0, value := some (-10) }], []) := by
  show ((sellLoop (some 20) (some 1)
      [{ price := some 10, size := some (-1), value := some (-10) }] (some 0)).1,
    (sellLoop (some 20) (some 1)
      [{ price := some 10, size := some (-1), value := some (-10) }] (some 0)).2.1 ++ [],
    (sellLoop (some 20) (some 1)
      [{ price := some 10, size := some (-1), value := some (-10) }] (some 0)).2.2) = _
  rw [neg_sellLoop_eval]
  simp

theorem neg_realized_eval : assetRealized negBase = some (-10) := by
  unfold assetRealized
  rw [neg_match_eval]

theorem neg_finalBuys_eval : assetFinalBuys negBase =
    [{ price := some 10, size := some 0, value := some (-10) }] := by
  unfold assetFinalBuys
  rw [neg_match_eval]
  simp

/-- C6 counterexample: `calculatePNLFromFills` does not exclude invalid
fills from matching.  On a negative-size buy (size -1 at 10) followed by a
valid unit sell at 20, exclusion would leave the sell unmatched and the
realized PNL at 0, but the code matches against the negative lot and
reports -10; the invalid fill is still counted in tradeCount and volume. -/
theorem c6_counterexample :
    (calculatePNLFromFills negBuyFills).totalRealizedPnl = some (-10) ∧
    ¬ (calculatePNLFromFills negBuyFills).totalRealizedPnl = some 0 ∧
    (calculatePNLFromFills negBuyFills).totalTrades = 2 ∧
    (calculatePNLFromFills negBuyFills).totalVolume = some 10 := by
  have htotal : (calculatePNLFromFills negBuyFills).totalRealizedPnl = some (-10) := by
    rw [calculatePNL_eq]
    show jsum ((ingestAll (negBuyFills.filter isXyzFill)).m.map fun p => assetRealized p.2) = _
    rw [neg_ingest_eval]
    simp only [List.map_cons, List.map_nil, neg_realized_eval]
    norm_num [jsum, jadd]
  refine ⟨htotal, ?_, ?_, ?_⟩
  · rw [htotal]
    norm_num
  · rw [calculatePNL_eq]
    show (ingestAll (negBuyFills.filter isXyzFill)).totalTrades = 2
    rw [neg_ingest_eval]
  · rw [calculatePNL_eq]
    show (ingestAll (negBuyFills.filter isXyzFill)).totalVolume = some 10
    rw [neg_ingest_eval]


/-- The negative-buy example's per-asset record as reported: the matched
negative lot is returned with its mutated size 0. -/
def negAsset : AssetPnl :=
  { buys := [{ price := some 10, size := some 0, value := some (-10) }],
    sells := [{ price := some 20, size := some 1, value := some 20 }],
    realizedPnl := some (-10), volume := some 10, trades := 2 }

theorem neg_byAsset_eval :
    (calculatePNLFromFills negBuyFills).byAsset = [("xyz:GOLD", negAsset)] := by
  rw [calculatePNL_eq]
  show (ingestAll (negBuyFills.filter isXyzFill)).m.map
      (fun p =>
        (p.1, { p.2 with buys := assetFinalBuys p.2, realizedPnl := assetRealized p.2 })) = _
  rw [neg_ingest_eval]
  simp only [List.map_cons, List.map_nil, neg_realized_eval, neg_finalBuys_eval]
  rfl

/-- C6 amended: `calculatePNLFromFills` is a total function of its input
(no failure outcome exists in the model); every xyz fill — whatever its
numeric values — is counted in its asset's tradeCount and adds price*size
to volume (NaN propagates rather than being treated as zero); a sell whose
size is not a positive number (non-positive or NaN) is skipped by the
matching loop and contributes exactly 0; buys, however, enter the lot
queue at the ingestion stage regardless of size or price validity and are
therefore not excluded from matching (the returned buys arrays then carry
the post-matching mutated sizes); the stored sells arrays are returned
exactly as ingested. -/
theorem c6_amended :
    (∀ (sp sz pnl : JsNum) (q : List Entry), jgt sz jzero = false →
      sellLoop sp sz q pnl = (pnl, [], q)) ∧
    (∀ fills : List Fill,
      (calculatePNLFromFills fills).totalTrades = (fills.filter isXyzFill).length) ∧
    (∀ fills : List Fill, ∀ p ∈ (calculatePNLFromFills fills).byAsset,
      p.2.trades = (fillsOf fills p.1).length ∧
      p.2.volume = jsum ((fillsOf fills p.1).map fillValue) ∧
      p.2.sells = ((fillsOf fills p.1).filter fun f => !isBuySide f.side).map fillEntry) ∧
    (∀ fills : List Fill, ∀ p ∈ (ingestAll (fills.filter isXyzFill)).m,
      p.2.buys = ((fillsOf fills p.1).filter fun f => isBuySide f.side).map fillEntry) := by
  refine ⟨?_, ?_, ?_, ?_⟩
  · intro sp sz pnl q hf
    exact sellLoop_not_pos sp sz pnl q (by simp [hf])
  · intro fills
    rw [calculatePNL_eq]
    exact (ingest_master (fills.filter isXyzFill)).2.2.2.2
  · intro fills p hp
    rw [byAsset_char fills p hp]
    exact ⟨rfl, rfl, rfl⟩
  · intro fills p hp
    have := (ingest_master (fills.filter isXyzFill)).2.2.1 p hp
    rw [this]
    rfl

theorem c6_amended_witness :
    jgt (none : JsNum) jzero = false ∧
    sellLoop (some 1) none [] (some 0) = (some 0, [], []) ∧
    ("xyz:GOLD", negAsset) ∈ (calculatePNLFromFills negBuyFills).byAsset ∧
    negAsset.trades = (fillsOf negBuyFills "xyz:GOLD").length ∧
    ("xyz:GOLD", negBase) ∈ (ingestAll (negBuyFills.filter isXyzFill)).m ∧
    negBase.buys = ((fillsOf negBuyFills "xyz:GOLD").filter fun f => isBuySide f.side).map fillEntry :=
  ⟨rfl, c6_amended.1 (some 1) none (some 0) [] rfl,
   by rw [neg_byAsset_eval]; exact List.mem_singleton.mpr rfl,
   (c6_amended.2.2.1 negBuyFills ("xyz:GOLD", negAsset)
     (by rw [neg_byAsset_eval]; exact List.mem_singleton.mpr rfl)).1,
   by rw [neg_ingest_eval]; exact List.mem_singleton.mpr rfl,
   c6_amended.2.2.2 negBuyFills ("xyz:GOLD", negBase)
     (by rw [neg_ingest_eval]; exact List.mem_singleton.mpr rfl)⟩

/-- C7: for every input fill list — the empty list yielding the all-zero
summary — each asset's reported volume is the sum of price*size over that
asset's input fills and its tradeCount the number of those fills,
independent of the matching outcome; and the aggregate totalRealizedPnl,
totalVolume and totalTrades are exactly the sums of the per-asset values. -/
theorem c7_totals_and_invariants :
    (∀ fills : List Fill, ∀ p ∈ (calculatePNLFromFills fills).byAsset,
      p.2.volume = jsum ((fillsOf fills p.1).map fillValue) ∧
      p.2.trades = (fillsOf fills p.1).length) ∧
    (∀ fills : List Fill,
      (calculatePNLFromFills fills).totalRealizedPnl =
        jsum ((calculatePNLFromFills fills).byAsset.map fun p => p.2.realizedPnl) ∧
      (calculatePNLFromFills fills).totalVolume =
        jsum ((calculatePNLFromFills fills).byAsset.map fun p => p.2.volume) ∧
      (calculatePNLFromFills fills).totalTrades =
        ((calculatePNLFromFills fills).byAsset.map fun p => p.2.trades).sum) ∧
    calculatePNLFromFills [] =
      { byAsset := [], totalRealizedPnl := some 0, totalVolume := some 0, totalTrades := 0 } := by
  refine ⟨?_, ?_, rfl⟩
  · intro fills p hp
    rw [byAsset_char fills p hp]
    exact ⟨rfl, rfl⟩
  · intro fills
    exact ⟨totalRealizedPnl_regroup fills, totalVolume_regroup fills, totalTrades_regroup fills⟩

theorem c7_totals_and_invariants_witness :
    (("xyz:GOLD", fifoExampleAsset) ∈ (calculatePNLFromFills fifoExampleFills).byAsset) ∧
    fifoExampleAsset.volume = jsum ((fillsOf fifoExampleFills "xyz:GOLD").map fillValue) ∧
    fifoExampleAsset.trades = (fillsOf fifoExampleFills "xyz:GOLD").length :=
  ⟨by rw [fifo_byAsset_eval]; exact List.mem_singleton.mpr rfl,
   (c7_totals_and_invariants.1 fifoExampleFills ("xyz:GOLD", fifoExampleAsset)
     (by rw [fifo_byAsset_eval]; exact List.mem_singleton.mpr rfl)).1,
   (c7_totals_and_invariants.1 fifoExampleFills ("xyz:GOLD", fifoExampleAsset)
     (by rw [fifo_byAsset_eval]; exact List.mem_singleton.mpr rfl)).2⟩

/-- C10: a fill whose coin is missing or lies outside the `xyz:` namespace
contributes nothing at all to `calculatePNLFromFills`: deleting it from the
input leaves the entire result — per-asset entries, volumes, trade counts,
realized PNL and the aggregate totals — unchanged. -/
theorem c10_nonxyz_invisible (l1 l2 : List Fill) (f : Fill) (hf : isXyzFill f = false) :
    calculatePNLFromFills (l1 ++ f :: l2) = calculatePNLFromFills (l1 ++ l2) := by
  unfold calculatePNLFromFills
  rw [List.filter_append, List.filter_cons, List.filter_append]
  simp [hf]

/-- A fill on a non-xyz coin. -/
def btcFill : Fill := { coin := some "BTC", px := some 5, sz := some 1, side := "B" }

theorem c10_nonxyz_invisible_witness :
    isXyzFill btcFill = false ∧
    calculatePNLFromFills (fifoExampleFills ++ btcFill :: []) =
      calculatePNLFromFills (fifoExampleFills ++ []) :=
  ⟨by decide, c10_nonxyz_invisible fifoExampleFills [] btcFill (by decide)⟩


/-! ### Claim theorems: the stream manager -/

theorem transportClosed_subscriptions (st : WSManager) :
    (transportClosed st).1.subscriptions = st.subscriptions := by
  unfold transportClosed
  cases hw : st.wsExists <;> simp [hw] <;> split <;> rfl

theorem connect_subscriptions (st : WSManager) :
    (connect st).1.subscriptions = st.subscriptions := by
  unfold connect
  split <;> rfl

theorem connect_attempts (st : WSManager) :
    (connect st).1.reconnectAttempts = st.reconnectAttempts := by
  unfold connect
  split <;> rfl

theorem count_frameSent_map (l : List Subscription) (s : Subscription) :
    ((l.map fun x => WsAction.frameSent "subscribe" x).count
      (WsAction.frameSent "subscribe" s)) = l.count s := by
  induction l with
  | nil => rfl
  | cons a rest ih =>
    simp only [List.map_cons, List.count_cons, ih]
    congr 1
    by_cases h : a = s
    · simp [h]
    · have hne : ¬ WsAction.frameSent "subscribe" a = WsAction.frameSent "subscribe" s := by
        intro hc
        exact h (by injection hc)
      simp [h, hne]

/-- The state after connect(), transport open, subscribing one coin, and an
explicit disconnect(); the closing socket's close event has not yet fired. -/
def afterExplicitDisconnect : WSManager :=
  (disconnect (subscribeTrades (handleOpen (connect initManager).1).1 "xyz:AAPL").1).1

/-- C2: an explicit `disconnect()` does not stop the retry loop.  After
connect, transport open, one subscription and `disconnect()`, the closed
transport's close event still runs the `onclose` handler, which schedules
an automatic reconnect after 1000 ms and bumps the attempt counter to 1 —
contradicting the claim that no reconnection is scheduled after explicit
disconnect.  The desired-subscription set is, as claimed, left intact. -/
theorem c2_disconnect_then_close_schedules_reconnect :
    (transportClosed afterExplicitDisconnect).2 =
      [WsAction.onDisconnectCalled, WsAction.scheduledReconnect 1000] ∧
    WsAction.scheduledReconnect 1000 ∈ (transportClosed afterExplicitDisconnect).2 ∧
    (transportClosed afterExplicitDisconnect).1.reconnectAttempts = 1 ∧
    (transportClosed afterExplicitDisconnect).1.subscriptions =
      [{ chanType := "trades", coin := some "xyz:AAPL" }] ∧
    afterExplicitDisconnect.subscriptions =
      [{ chanType := "trades", coin := some "xyz:AAPL" }] := by decide

/-- C3: whenever the transport opens the manager resets the attempt counter
to zero, re-sends one subscribe frame for every entry of the desired set —
exactly once each, no duplicates, no omissions — and only afterwards
dispatches the onConnect listeners; in particular after a disconnect plus
reconnect cycle every previously subscribed identity is replayed exactly
once on the new connection. -/
theorem c3_open_replays_each_subscription_once (st : WSManager)
    (hnd : st.subscriptions.Nodup) :
    (handleOpen (connect (transportClosed st).1).1).1.reconnectAttempts = 0 ∧
    (handleOpen (connect (transportClosed st).1).1).1.subscriptions = st.subscriptions ∧
    (handleOpen (connect (transportClosed st).1).1).2 =
      (st.subscriptions.map fun s => WsAction.frameSent "subscribe" s) ++
        [WsAction.onConnectCalled] ∧
    (∀ s ∈ st.subscriptions,
      (handleOpen (connect (transportClosed st).1).1).2.count
        (WsAction.frameSent "subscribe" s) = 1) ∧
    (∀ s : Subscription, s ∉ st.subscriptions →
      (handleOpen (connect (transportClosed st).1).1).2.count
        (WsAction.frameSent "subscribe" s) = 0) := by
  have hsub2 : (connect (transportClosed st).1).1.subscriptions = st.subscriptions := by
    rw [connect_subscriptions, transportClosed_subscriptions]
  have hacts : (handleOpen (connect (transportClosed st).1).1).2 =
      (st.subscriptions.map fun s => WsAction.frameSent "subscribe" s) ++
        [WsAction.onConnectCalled] := by
    show ((connect (transportClosed st).1).1.subscriptions.map
        fun s => WsAction.frameSent "subscribe" s) ++ [WsAction.onConnectCalled] = _
    rw [hsub2]
  refine ⟨rfl, hsub2, hacts, ?_, ?_⟩
  · intro s hs
    rw [hacts, List.count_append, count_frameSent_map]
    have h1 : st.subscriptions.count s = 1 := List.count_eq_one_of_mem hnd hs
    have h2 : ([WsAction.onConnectCalled].count (WsAction.frameSent "subscribe" s)) = 0 := by
      simp [List.count_singleton]
    omega
  · intro s hs
    rw [hacts, List.count_append, count_frameSent_map]
    have h1 : st.subscriptions.count s = 0 := List.count_eq_zero_of_not_mem hs
    have h2 : ([WsAction.onConnectCalled].count (WsAction.frameSent "subscribe" s)) = 0 := by
      simp [List.count_singleton]
    omega

/-- The connected manager holding two desired subscriptions. -/
def wsTwoSubs : WSManager :=
  (subscribeTrades (subscribeTrades (handleOpen (connect initManager).1).1 "xyz:AAPL").1
    "xyz:GOLD").1

theorem c3_open_replays_each_subscription_once_witness :
    wsTwoSubs.subscriptions.Nodup ∧
    (handleOpen (connect (transportClosed wsTwoSubs).1).1).2 =
      [WsAction.frameSent "subscribe" { chanType := "trades", coin := some "xyz:AAPL" },
       WsAction.frameSent "subscribe" { chanType := "trades", coin := some "xyz:GOLD" },
       WsAction.onConnectCalled] ∧
    (handleOpen (connect (transportClosed wsTwoSubs).1).1).1.reconnectAttempts = 0 :=
  ⟨by decide,
   ((c3_open_replays_each_subscription_once wsTwoSubs (by decide)).2.2.1).trans (by decide),
   (c3_open_replays_each_subscription_once wsTwoSubs (by decide)).1⟩

/-- One failed connection attempt: connect() then an unexpected closure. -/
def failedAttempt (st : WSManager) : WSManager := (transportClosed (connect st).1).1

/-- The manager after five consecutive failed attempts with no open. -/
def wsExhausted : WSManager :=
  failedAttempt (failedAttempt (failedAttempt (failedAttempt (failedAttempt initManager))))

/-- C4 counterexample: after five consecutive failures the counter is 5, a
further closure schedules nothing more — but the claimed reset does not
happen: an explicit `connect()` leaves the attempt counter at 5, not 0;
only a successful open resets it. -/
theorem c4_counterexample :
    wsExhausted.reconnectAttempts = 5 ∧
    (transportClosed wsExhausted).2 = [WsAction.onDisconnectCalled] ∧
    (transportClosed wsExhausted).1.reconnectAttempts = 5 ∧
    (connect wsExhausted).1.reconnectAttempts = 5 ∧
    ¬ (connect wsExhausted).1.reconnectAttempts = 0 := by decide

/-- C4 amended: once `reconnectAttempts` has reached `maxReconnectAttempts`,
a further transport closure schedules no reconnect and leaves the counter
unchanged, and the manager stays disconnected until the caller intervenes;
`connect()` itself never changes the attempt counter — the counter is reset
to 0 only when the transport opens successfully. -/
theorem c4_amended (st st2 : WSManager)
    (h : st.maxReconnectAttempts ≤ st.reconnectAttempts) :
    (transportClosed st).1.reconnectAttempts = st.reconnectAttempts ∧
    (transportClosed st).1.isConnected = false ∧
    (∀ d, WsAction.scheduledReconnect d ∉ (transportClosed st).2) ∧
    (connect st2).1.reconnectAttempts = st2.reconnectAttempts ∧
    (handleOpen st2).1.reconnectAttempts = 0 := by
  have hnot : ¬ st.reconnectAttempts < st.maxReconnectAttempts := by omega
  refine ⟨?_, ?_, ?_, connect_attempts st2, rfl⟩
  · unfold transportClosed
    cases hw : st.wsExists <;> simp [hw, hnot]
  · unfold transportClosed
    cases hw : st.wsExists <;> simp [hw, hnot]
  · intro d
    unfold transportClosed
    cases hw : st.wsExists <;> simp [hw, hnot]

theorem c4_amended_witness :
    wsExhausted.maxReconnectAttempts ≤ wsExhausted.reconnectAttempts ∧
    (transportClosed wsExhausted).1.reconnectAttempts = wsExhausted.reconnectAttempts ∧
    (connect wsExhausted).1.reconnectAttempts = wsExhausted.reconnectAttempts :=
  ⟨by decide,
   (c4_amended wsExhausted wsExhausted (by decide)).1,
   (c4_amended wsExhausted wsExhausted (by decide)).2.2.2.1⟩

/-- C5: an inbound trades-channel message carrying one record or an array
of N records is normalized by the dispatch pipeline — `handleMessage`
passing `data.data` to the registered onTrade listener, which unfolds
arrays — into exactly the N individual records, in payload order, with
batch boundaries not preserved at the per-record interface. -/
theorem c5_trade_batches_normalized (ts : List Trade) (t : Trade) :
    tradeRecordsDelivered 1 "trades" (WsData.many ts) = ts ∧
    tradeRecordsDelivered 1 "trades" (WsData.one t) = [t] ∧
    (tradeRecordsDelivered 1 "trades" (WsData.many ts)).length = ts.length := by
  refine ⟨?_, ?_, ?_⟩ <;>
    simp [tradeRecordsDelivered, handleMessage, appOnTrade]

/-- The freshly connected manager with an empty desired set. -/
def wsConnectedEmpty : WSManager := (handleOpen (connect initManager).1).1

/-- C8: subscribing to the same (trades, coin) identity twice while
connected sends exactly one subscribe frame and stores exactly one entry;
the second call is a complete no-op. -/
theorem c8_subscribe_idempotent (st : WSManager) (coin : String)
    (hex : st.wsExists = true) (hop : st.wsReady = ReadyState.opened)
    (hnew : ({ chanType := "trades", coin := some coin } : Subscription) ∉ st.subscriptions) :
    (subscribeTrades st coin).2 =
      [WsAction.frameSent "subscribe" { chanType := "trades", coin := some coin }] ∧
    (subscribeTrades (subscribeTrades st coin).1 coin).1 = (subscribeTrades st coin).1 ∧
    (subscribeTrades (subscribeTrades st coin).1 coin).2 = [] ∧
    (subscribeTrades st coin).1.subscriptions.count
      { chanType := "trades", coin := some coin } = 1 := by
  have h1 : subscribeTrades st coin =
      ({ st with subscriptions := st.subscriptions ++
          [{ chanType := "trades", coin := some coin }] },
       [WsAction.frameSent "subscribe" { chanType := "trades", coin := some coin }]) := by
    unfold subscribeTrades sendMsg
    simp [hex, hop, hnew]
  have h2 : subscribeTrades
      ({ st with subscriptions := st.subscriptions ++
          [{ chanType := "trades", coin := some coin }] }) coin =
      ({ st with subscriptions := st.subscriptions ++
          [{ chanType := "trades", coin := some coin }] }, []) := by
    unfold subscribeTrades
    simp
  refine ⟨by rw [h1], by simp [h1, h2], by simp [h1, h2], ?_⟩
  rw [h1]
  simp only [List.count_append]
  rw [List.count_eq_zero_of_not_mem hnew]
  simp

theorem c8_subscribe_idempotent_witness :
    wsConnectedEmpty.wsExists = true ∧
    wsConnectedEmpty.wsReady = ReadyState.opened ∧
    ({ chanType := "trades", coin := some "xyz:AAPL" } : Subscription) ∉
      wsConnectedEmpty.subscriptions ∧
    (subscribeTrades wsConnectedEmpty "xyz:AAPL").2 =
      [WsAction.frameSent "subscribe" { chanType := "trades", coin := some "xyz:AAPL" }] :=
  ⟨rfl, rfl, by decide,
   (c8_subscribe_idempotent wsConnectedEmpty "xyz:AAPL" rfl rfl (by decide)).1⟩

/-- C9 counterexample: unsubscribing an identity that was never subscribed
is not a no-op — while connected, an unsubscribe frame is still sent. -/
theorem c9_counterexample :
    ({ chanType := "trades", coin := some "xyz:AAPL" } : Subscription) ∉
      wsConnectedEmpty.subscriptions ∧
    (unsubscribe wsConnectedEmpty { chanType := "trades", coin := some "xyz:AAPL" }).2 =
      [WsAction.frameSent "unsubscribe" { chanType := "trades", coin := some "xyz:AAPL" }] ∧
    ¬ (unsubscribe wsConnectedEmpty { chanType := "trades", coin := some "xyz:AAPL" }).2 =
      [] := by decide

/-- C9 amended: `unsubscribe` removes the identity from the desired set —
the set is unchanged when the identity was absent — and calls `send`
unconditionally, so whenever the transport is open an unsubscribe frame is
sent even for an identity that was never subscribed (only a closed
transport suppresses the frame). -/
theorem c9_amended (st : WSManager) (sub : Subscription) :
    (unsubscribe st sub).1.subscriptions = st.subscriptions.filter (fun s => s ≠ sub) ∧
    (sub ∉ st.subscriptions → (unsubscribe st sub).1.subscriptions = st.subscriptions) ∧
    (st.wsExists = true → st.wsReady = ReadyState.opened →
      (unsubscribe st sub).2 = [WsAction.frameSent "unsubscribe" sub]) ∧
    (¬ (st.wsExists = true ∧ st.wsReady = ReadyState.opened) →
      (unsubscribe st sub).2 = [WsAction.warnNotConnected]) := by
  refine ⟨rfl, ?_, ?_, ?_⟩
  · intro hnot
    show st.subscriptions.filter (fun s => s ≠ sub) = st.subscriptions
    apply List.filter_eq_self.mpr
    intro a ha
    simp only [ne_eq, decide_eq_true_eq]
    exact fun hc => hnot (hc ▸ ha)
  · intro hex hop
    show sendMsg _ "unsubscribe" sub = _
    unfold sendMsg
    rw [if_pos (by simp [hex, hop])]
  · intro hnot
    show sendMsg _ "unsubscribe" sub = _
    unfold sendMsg
    rw [if_neg (by simpa using hnot)]

theorem c9_amended_witness :
    ({ chanType := "trades", coin := some "xyz:GOLD" } : Subscription) ∉
      wsConnectedEmpty.subscriptions ∧
    (unsubscribe wsConnectedEmpty { chanType := "trades", coin := some "xyz:GOLD" }).1.subscriptions =
      wsConnectedEmpty.subscriptions ∧
    (unsubscribe wsConnectedEmpty { chanType := "trades", coin := some "xyz:GOLD" }).2 =
      [WsAction.frameSent "unsubscribe" { chanType := "trades", coin := some "xyz:GOLD" }] :=
  ⟨by decide,
   (c9_amended wsConnectedEmpty { chanType := "trades", coin := some "xyz:GOLD" }).2.1 (by decide),
   (c9_amended wsConnectedEmpty { chanType := "trades", coin := some "xyz:GOLD" }).2.2.1 rfl rfl⟩
